import Mathlib

/-!
Verification of the ACP harness and log normalizer
(src/executors/acp/normalize_logs.rs, src/executors/acp/harness.rs).

The Rust sources are shallowly embedded below.  External library types and
functions (the `agent_client_protocol` crate, `workspace_utils` helpers such
as `create_unified_diff` and `make_path_relative`, and `serde_json`'s string
parser) are either modelled abstractly (see `ExtFns`) or given definitions
that follow the behaviour documented for them; each such spot carries a doc
comment saying so.  Everything else is translated directly from the source.
-/

/-- Models serde_json::Value.  Numbers are restricted to integers: no claim
under verification depends on non-integer JSON numbers, and floating point
is out of scope for the embedding. -/
inductive JsonVal where
  | null
  | bool (b : Bool)
  | num (n : Int)
  | str (s : String)
  | arr (elems : List JsonVal)
  | obj (fields : List (String × JsonVal))

/-- Models agent_client_protocol::ContentBlock as far as the normalizer
observes it: the normalizer pattern-matches only the `Text` variant, so all
other variants (image, audio, resource, ...) are collapsed into
`otherBlock`. -/
inductive ContentBlock where
  | text (t : String)
  | otherBlock
deriving DecidableEq

/-- Models agent_client_protocol::ToolKind. -/
inductive ToolKind where
  | read | edit | execute | delete | search | fetch | think | switchMode | move | other
deriving DecidableEq

/-- Modelled from the agent_client_protocol crate (not part of this
repository): `ToolKind::default()` is `Other`.  This is the default-sentinel
the merge in `PartialToolCallData::extend` compares against. -/
def defaultToolKind : ToolKind := .other

/-- Models agent_client_protocol::ToolCallStatus. -/
inductive ToolCallStatus where
  | pending | inProgress | completed | failed
deriving DecidableEq

/-- Modelled from the agent_client_protocol crate (not part of this
repository): `ToolCallStatus::default()` is `Pending`. -/
def defaultToolCallStatus : ToolCallStatus := .pending

/-- Models agent_client_protocol::ToolCallContent.  The `Diff` variant keeps
the fields the normalizer reads (`path`, `old_text`, `new_text`); a terminal
block (never inspected by the normalizer) is `terminalBlock`. -/
inductive ToolCallContent where
  | contentBlock (content : ContentBlock)
  | diffBlock (path : String) (old_text : Option String) (new_text : String)
  | terminalBlock

/-- Models agent_client_protocol::ToolCall.  Locations are modelled by the
`path` field of each `ToolCallLocation`, the only field the code reads. -/
structure ToolCall where
  id : String
  kind : ToolKind
  title : String
  status : ToolCallStatus
  locations : List String
  content : List ToolCallContent
  raw_input : Option JsonVal
  raw_output : Option JsonVal

/-- Models agent_client_protocol::ToolCallUpdateFields (every field
optional). -/
structure ToolCallUpdateFields where
  kind : Option ToolKind
  status : Option ToolCallStatus
  title : Option String
  content : Option (List ToolCallContent)
  locations : Option (List String)
  raw_input : Option JsonVal
  raw_output : Option JsonVal

/-- Models agent_client_protocol::ToolCallUpdate. -/
structure ToolCallUpdate where
  id : String
  fields : ToolCallUpdateFields

/-- Modelled from the spec and the agent_client_protocol crate (not under
src/): converting a `ToolCallUpdate` into a full `ToolCall` requires the
`title` field to be present and defaults every other missing field; a
failed conversion makes the normalizer drop the update. -/
def tryToolCallOfUpdate (u : ToolCallUpdate) : Option ToolCall :=
  u.fields.title.map (fun t =>
    { id := u.id
      kind := u.fields.kind.getD defaultToolKind
      title := t
      status := u.fields.status.getD defaultToolCallStatus
      locations := u.fields.locations.getD []
      content := u.fields.content.getD []
      raw_input := u.fields.raw_input
      raw_output := u.fields.raw_output })

/-- Models the tagged union AcpEvent from src/executors/acp (payloads are
reduced to the parts the normalizer reads: plan entries to their `content`
strings, available commands to their names, the current mode to its id
string). -/
inductive AcpEvent where
  | sessionStart (id : String)
  | message (content : ContentBlock)
  | thought (content : ContentBlock)
  | toolCall (tc : ToolCall)
  | toolUpdate (u : ToolCallUpdate)
  | plan (entries : List String)
  | availableCommands (names : List String)
  | currentMode (modeId : String)
  | requestPermission (u : ToolCallUpdate)
  | done (stopReason : String)
  | error (msg : String)
  | user (msg : String)
  | otherEv

/-- Models crate::logs::ToolStatus. -/
inductive LogToolStatus where
  | created | success | failed
deriving DecidableEq

/-- Models crate::logs::ToolResultValueType. -/
inductive ToolResultValueType where
  | markdown | json
deriving DecidableEq

/-- Models crate::logs::ToolResult (`valueType` stands for the Rust field
`r#type`). -/
structure ToolResult where
  valueType : ToolResultValueType
  value : JsonVal

/-- Models crate::logs::FileChange. -/
inductive FileChange where
  | write (content : String)
  | edit (unified_diff : String) (has_line_numbers : Bool)
  | delete

/-- Models crate::logs::CommandExitStatus. -/
inductive CommandExitStatus where
  | exitCode (code : Int)
  | success (success : Bool)

/-- Models crate::logs::CommandRunResult. -/
structure CommandRunResult where
  exit_status : Option CommandExitStatus
  output : Option String

/-- Models crate::logs::ActionType (the variants the ACP normalizer
produces). -/
inductive ActionType where
  | fileRead (path : String)
  | fileEdit (path : String) (changes : List FileChange)
  | commandRun (command : String) (result : Option CommandRunResult)
  | search (query : String)
  | webFetch (url : String)
  | tool (tool_name : String) (arguments : Option JsonVal) (result : Option ToolResult)
  | other (description : String)

/-- Models crate::logs::NormalizedEntryType (the variants this normalizer
produces). -/
inductive NormalizedEntryType where
  | assistantMessage
  | thinking
  | systemMessage
  | errorMessage
  | toolUse (tool_name : String) (action_type : ActionType) (status : LogToolStatus)

/-- Models crate::logs::NormalizedEntry.  The Rust struct also carries
`timestamp` and `metadata`, both always `None` in this normalizer, so they
are omitted. -/
structure NormalizedEntry where
  entry_type : NormalizedEntryType
  content : String

/-- Models crate::logs::utils::ConversationPatch: `add_normalized_entry`
becomes `add`, `replace` stays `replace`. -/
inductive Patch where
  | add (idx : Nat) (entry : NormalizedEntry)
  | replace (idx : Nat) (entry : NormalizedEntry)

/-- One observable output of the normalizer loop: a conversation patch
pushed to the message store, or a session id push. -/
inductive NormOut where
  | patch (p : Patch)
  | sessionId (id : String)

/-- External functions the sources call but that live outside src/:
`udiff` models workspace_utils::diff::create_unified_diff (path, old, new),
`mkRel` models workspace_utils::path::make_path_relative (path, worktree),
`jsonOfString` models serde_json::from_str::<Value>.  Theorems quantify over
them; witnesses instantiate them with `extSample`. -/
structure ExtFns where
  udiff : String → String → String → String
  mkRel : String → String → String
  jsonOfString : String → Option JsonVal

/-- Concrete instance of the external functions used by witnesses and
counterexamples (the facts checked with it do not depend on the choice). -/
def extSample : ExtFns :=
  { udiff := fun p o n => p ++ "|" ++ o ++ "|" ++ n
    mkRel := fun p _ => p
    jsonOfString := fun _ => none }

/-- Rust str::is_empty. -/
def strIsEmpty (s : String) : Bool := s.data.isEmpty

/-- Boolean prefix test on character lists (Rust str::starts_with). -/
def leadsWith : List Char → List Char → Bool
  | [], _ => true
  | _ :: _, [] => false
  | a :: as', b :: bs => a == b && leadsWith as' bs

/-- Characters of a string strictly before the first occurrence of the
pattern (Rust str::split(pat).next() for the first segment). -/
def takeBeforeSub (pat : List Char) : List Char → List Char
  | [] => []
  | c :: rest => if leadsWith pat (c :: rest) then [] else c :: takeBeforeSub pat rest

/-- Whitespace trim on both ends of a character list (Rust str::trim; the
Rust version trims full Unicode whitespace, the titles relevant here are
ASCII). -/
def trimChars (l : List Char) : List Char :=
  ((l.dropWhile Char.isWhitespace).reverse.dropWhile Char.isWhitespace).reverse

/-- AcpEventParser::parse_execute_command: the part of the title before the
first " (", trimmed. -/
def parse_execute_command (title : String) : String :=
  String.mk (trimChars (takeBeforeSub (" (").data title.data))

/-- Split a character list at its last hyphen: `some (head, tail)` with the
hyphen removed, `none` when there is no hyphen.  This fuses the Rust steps
`id.rfind('-')`, `split_at`, and `trim_start_matches('-')` of
extract_tool_name_from_id: the tail after the last hyphen can contain no
further hyphen, so trimming leading hyphens removes exactly the one
splitting hyphen. -/
def lastHyphenSplit : List Char → Option (List Char × List Char)
  | [] => none
  | c :: rest =>
    match lastHyphenSplit rest with
    | some (h, t) => some (c :: h, t)
    | none => if c = '-' then some ([], rest) else none

/-- extract_tool_name_from_id from normalize_logs.rs. -/
def extract_tool_name_from_id (id : String) : Option String :=
  match lastHyphenSplit id.data with
  | some (head, tail) => if tail.all Char.isDigit then some (String.mk head) else none
  | none => none

/-- The character `{` (written via its code point to keep it out of string
literals). -/
def openBraceChar : Char := Char.ofNat 123

/-- The character `'`. -/
def singleQuoteChar : Char := Char.ofNat 39

/-- Characters that terminate a URL match, per the regex character class
used by extract_url_from_text. -/
def urlStop (c : Char) : Bool :=
  c.isWhitespace || c == '"' || c == singleQuoteChar || c == ')'

/-- Attempt to match the regex `https?://[^\s"')]+` at the head of the
list, returning the matched characters. -/
def urlMatchAt (l : List Char) : Option (List Char) :=
  if leadsWith ("https://").data l then
    let body := (l.drop 8).takeWhile (fun c => !urlStop c)
    if body.isEmpty then none else some (("https://").data ++ body)
  else if leadsWith ("http://").data l then
    let body := (l.drop 7).takeWhile (fun c => !urlStop c)
    if body.isEmpty then none else some (("http://").data ++ body)
  else none

/-- Leftmost match scan for extract_url_from_text. -/
def urlScan : List Char → Option String
  | [] => none
  | c :: rest =>
    match urlMatchAt (c :: rest) with
    | some u => some (String.mk u)
    | none => urlScan rest

/-- extract_url_from_text from normalize_logs.rs (first match of
`https?://[^\s"')]+`). -/
def extract_url_from_text (text : String) : Option String :=
  urlScan text.data

/-- Field lookup in a modelled JSON object. -/
def jGet (fields : List (String × JsonVal)) (k : String) : Option JsonVal :=
  (fields.find? (fun p => p.1 == k)).map (fun p => p.2)

/-- Deserialization of an optional integer field with serde
`#[serde(default)]`: absent or null gives `none`, an integer gives `some`,
anything else fails the whole parse. -/
def optIntField (fields : List (String × JsonVal)) (k : String) : Option (Option Int) :=
  match jGet fields k with
  | none => some none
  | some .null => some none
  | some (.num n) => some (some n)
  | some _ => none

/-- Deserialization of an optional string field with serde
`#[serde(default)]`. -/
def optStrField (fields : List (String × JsonVal)) (k : String) : Option (Option String) :=
  match jGet fields k with
  | none => some none
  | some .null => some none
  | some (.str s) => some (some s)
  | some _ => none

/-- Models the ShellOutput struct of normalize_logs.rs. -/
structure ShellOutput where
  exit_code : Option Int
  stdout : Option String
  stderr : Option String

/-- serde_json::from_value::<ShellOutput>: succeeds exactly on JSON objects
whose `exit_code` / `stdout` / `stderr` fields (if present) have the right
types; unknown fields are ignored. -/
def parseShellOutput : JsonVal → Option ShellOutput
  | .obj fields =>
    match optIntField fields "exit_code", optStrField fields "stdout",
        optStrField fields "stderr" with
    | some ec, some out, some err => some ⟨ec, out, err⟩
    | _, _, _ => none
  | _ => none

/-- serde_json::from_value::<SearchArgs> reduced to the `query` field it
extracts: requires a JSON object with a string `query`. -/
def parseSearchArgs : JsonVal → Option String
  | .obj fields =>
    match jGet fields "query" with
    | some (.str s) => some s
    | _ => none
  | _ => none

/-- serde_json::from_value::<FetchArgs> reduced to the `url` field. -/
def parseFetchArgs : JsonVal → Option String
  | .obj fields =>
    match jGet fields "url" with
    | some (.str s) => some s
    | _ => none
  | _ => none

/-- PartialToolCallData from normalize_logs.rs. -/
structure PartialToolCallData where
  index : Nat
  id : String
  kind : ToolKind
  title : String
  status : ToolCallStatus
  path : Option String
  content : List ToolCallContent
  raw_input : Option JsonVal
  raw_output : Option JsonVal

/-- The Default impl for PartialToolCallData. -/
def PartialToolCallData.dflt : PartialToolCallData :=
  { index := 0
    id := ""
    kind := defaultToolKind
    title := ""
    status := defaultToolCallStatus
    path := none
    content := []
    raw_input := none
    raw_output := none }

/-- PartialToolCallData::extend: the merge of an incoming ToolCall into the
accumulated record, mirroring the Rust sequence of conditional field
assignments. -/
def PartialToolCallData.extend (d : PartialToolCallData) (tc : ToolCall)
    (ext : ExtFns) (wt : String) : PartialToolCallData :=
  let d1 := { d with id := tc.id }
  let d2 := if tc.kind ≠ defaultToolKind then { d1 with kind := tc.kind } else d1
  let d3 := if ¬ strIsEmpty tc.title then { d2 with title := tc.title } else d2
  let d4 := if tc.status ≠ defaultToolCallStatus then { d3 with status := tc.status } else d3
  let d5 := if ¬ tc.locations.isEmpty then
      { d4 with path := tc.locations.head?.map (fun l => ext.mkRel l wt) } else d4
  let d6 := if ¬ tc.content.isEmpty then { d5 with content := tc.content } else d5
  let d7 := if tc.raw_input.isSome then { d6 with raw_input := tc.raw_input } else d6
  let d8 := if tc.raw_output.isSome then { d7 with raw_output := tc.raw_output } else d7
  d8

/-- collect_text_content's accumulation loop: append each text block and
ensure the accumulator ends with a newline after every append. -/
def collectTextGo (out : String) : List ToolCallContent → String
  | [] => out
  | c :: rest =>
    match c with
    | .contentBlock (.text t) =>
      let out1 := out ++ t
      let out2 := if (out1.data.getLast?).any (fun ch => ch == '\n') then out1 else out1 ++ "\n"
      collectTextGo out2 rest
    | _ => collectTextGo out rest

/-- collect_text_content from normalize_logs.rs. -/
def collect_text_content (content : List ToolCallContent) : Option String :=
  let out := collectTextGo "" content
  if strIsEmpty out then none else some out

/-- convert_tool_status from normalize_logs.rs. -/
def convert_tool_status : ToolCallStatus → LogToolStatus
  | .pending | .inProgress => .created
  | .completed => .success
  | .failed => .failed

/-- The per-block loop of extract_file_changes, carrying the tool call's
fallback path. -/
def extractFileChangesGo (ext : ExtFns) (tcPath : Option String) :
    List ToolCallContent → List FileChange
  | [] => []
  | c :: rest =>
    match c with
    | .diffBlock path old new =>
      let rel := if ¬ strIsEmpty path then path else tcPath.getD ""
      let old_text := old.getD ""
      let change := if strIsEmpty old_text then FileChange.write new
        else FileChange.edit (ext.udiff rel old_text new) false
      change :: extractFileChangesGo ext tcPath rest
    | _ => extractFileChangesGo ext tcPath rest

/-- extract_file_changes from normalize_logs.rs. -/
def extract_file_changes (ext : ExtFns) (tc : PartialToolCallData) : List FileChange :=
  extractFileChangesGo ext tc.path tc.content

/-- map_to_action_type from normalize_logs.rs. -/
def map_to_action_type (ext : ExtFns) (tc : PartialToolCallData) : ActionType :=
  match tc.kind with
  | .read =>
    if leadsWith ("read_many_files").data tc.id.data then
      ActionType.tool "read_many_files" (some (.str tc.title))
        ((collect_text_content tc.content).map (fun text => ⟨.markdown, .str text⟩))
    else
      ActionType.fileRead (tc.path.getD "")
  | .edit =>
    ActionType.fileEdit (tc.path.getD "") (extract_file_changes ext tc)
  | .execute =>
    let command := parse_execute_command tc.title
    let completed : Bool := tc.status == .completed
    let result : Option CommandRunResult :=
      match tc.raw_output with
      | some out_val =>
        (parseShellOutput out_val).map (fun out =>
          let exit0 := out.exit_code.map (fun code => CommandExitStatus.exitCode code)
          let output := (out.stdout <|> out.stderr).getD ""
          let exit1 := if exit0.isNone && completed then some (CommandExitStatus.success true)
            else exit0
          ⟨exit1, some output⟩)
      | none => none
    let result2 := if result.isNone && completed then
        some ⟨some (CommandExitStatus.success true), none⟩ else result
    ActionType.commandRun command result2
  | .delete =>
    ActionType.fileEdit (tc.path.getD "") [FileChange.delete]
  | .search =>
    ActionType.search ((tc.raw_input.bind parseSearchArgs).getD tc.title)
  | .fetch =>
    let url0 := (tc.raw_input.bind parseFetchArgs).getD ""
    let url := if strIsEmpty url0 then (extract_url_from_text tc.title).getD url0 else url0
    ActionType.webFetch url
  | .think =>
    let tool_name := (extract_tool_name_from_id tc.id).getD tc.title
    let text := collect_text_content tc.content
    let arguments := some (match text with
      | some t => JsonVal.obj [("title", .str tc.title), ("content", .str t)]
      | none => JsonVal.obj [("title", .str tc.title)])
    let result := match tc.raw_output with
      | some output => some (⟨.json, output⟩ : ToolResult)
      | none => (collect_text_content tc.content).map (fun text => ⟨.markdown, .str text⟩)
    ActionType.tool tool_name arguments result
  | .switchMode =>
    ActionType.other "switch_mode"
  | .move | .other =>
    let tool_name := (extract_tool_name_from_id tc.id).getD tc.title
    let arguments := match tc.raw_input with
      | some raw => some raw
      | none =>
        if (tc.title.data.dropWhile Char.isWhitespace).head?.any (fun c => c == openBraceChar)
        then ext.jsonOfString tc.title
        else none
    let result := match tc.raw_output with
      | some output => some (⟨.json, output⟩ : ToolResult)
      | none => (collect_text_content tc.content).map (fun text => ⟨.markdown, .str text⟩)
    ActionType.tool tool_name arguments result

/-- get_tool_content from normalize_logs.rs. -/
def get_tool_content (tc : PartialToolCallData) : String :=
  match tc.kind with
  | .execute => parse_execute_command tc.title
  | .think => "Saving memory"
  | .other =>
    let tool_name := (extract_tool_name_from_id tc.id).getD "tool"
    if strIsEmpty tc.title then tool_name else tool_name ++ ": " ++ tc.title
  | .read =>
    if leadsWith ("read_many_files").data tc.id.data then "Read files" else tc.title
  | _ => tc.title

/-- StreamingText from normalize_logs.rs: an open accumulator slot. -/
structure StreamingText where
  index : Nat
  content : String

/-- The mutable state of the normalizer's stdout loop: the
session-id-stored flag, the StreamingState slots, the tool-call table, and
the entry-index provider.  The provider (EntryIndexProvider from
workspace_utils, not under src/) is modelled from the spec as a monotonic
counter whose `next()` returns the current value and increments. -/
structure NormState where
  storedSessionId : Bool
  assistant_text : Option StreamingText
  thinking_text : Option StreamingText
  tool_states : List (String × PartialToolCallData)
  nextIndex : Nat

/-- Initial loop state with the index provider starting at `start`. -/
def initNorm (start : Nat) : NormState :=
  { storedSessionId := false
    assistant_text := none
    thinking_text := none
    tool_states := []
    nextIndex := start }

/-- HashMap::get on the tool-call table (modelled as an association
list). -/
def lookupTool : List (String × PartialToolCallData) → String → Option PartialToolCallData
  | [], _ => none
  | (k, v) :: rest, id => if k = id then some v else lookupTool rest id

/-- HashMap insertion / in-place update on the tool-call table. -/
def insertTool : List (String × PartialToolCallData) → String → PartialToolCallData →
    List (String × PartialToolCallData)
  | [], id, d => [(id, d)]
  | (k, v) :: rest, id, d =>
    if k = id then (k, d) :: rest else (k, v) :: insertTool rest id d

/-- handle_tool_call from normalize_logs.rs: close both streaming slots,
merge the incoming record into the table (allocating an entry index on the
first observation of the id), and emit an add/replace patch. -/
def handle_tool_call (ext : ExtFns) (wt : String) (st : NormState) (tc : ToolCall) :
    NormState × List NormOut :=
  let st1 := { st with assistant_text := none, thinking_text := none }
  let id := tc.id
  let is_new := (lookupTool st1.tool_states id).isNone
  let d0 := (lookupTool st1.tool_states id).getD PartialToolCallData.dflt
  let d1 := d0.extend tc ext wt
  let d2 := if is_new then { d1 with index := st1.nextIndex } else d1
  let st2 := if is_new then { st1 with nextIndex := st1.nextIndex + 1 } else st1
  let action := map_to_action_type ext d2
  let entry : NormalizedEntry :=
    ⟨.toolUse d2.title action (convert_tool_status d2.status), get_tool_content d2⟩
  let patch := if is_new then Patch.add d2.index entry else Patch.replace d2.index entry
  ({ st2 with tool_states := insertTool st2.tool_states id d2 }, [.patch patch])

/-- Body text built by the Plan branch. -/
def planBody (entries : List String) : String :=
  "Plan:\n" ++ (entries.enum.map (fun p => toString (p.1 + 1) ++ ". " ++ p.2 ++ "\n")).foldr
    (fun a b => a ++ b) ""

/-- Body text built by the AvailableCommands branch. -/
def commandsBody (names : List String) : String :=
  "Available commands:\n" ++ (names.map (fun c => "- " ++ c ++ "\n")).foldr
    (fun a b => a ++ b) ""

/-- One iteration of the normalizer's stdout loop (normalize_logs.rs, the
match on the parsed AcpEvent), returning the updated state and the outputs
pushed to the message store. -/
def step (ext : ExtFns) (wt : String) (st : NormState) : AcpEvent → NormState × List NormOut
  | .sessionStart id =>
    if st.storedSessionId then (st, [])
    else ({ st with storedSessionId := true }, [.sessionId id])
  | .error msg =>
    ({ st with nextIndex := st.nextIndex + 1 },
      [.patch (.add st.nextIndex ⟨.errorMessage, msg⟩)])
  | .done _ =>
    ({ st with assistant_text := none, thinking_text := none }, [])
  | .message content =>
    let st1 := { st with thinking_text := none }
    match content with
    | .text t =>
      let is_new := st1.assistant_text.isNone
      match st1.assistant_text with
      | none =>
        let idx := st1.nextIndex
        let s : StreamingText := ⟨idx, "" ++ t⟩
        let entry : NormalizedEntry := ⟨.assistantMessage, s.content⟩
        ({ st1 with assistant_text := some s, nextIndex := st1.nextIndex + 1 },
          [.patch (if is_new then .add idx entry else .replace idx entry)])
      | some s0 =>
        let s : StreamingText := ⟨s0.index, s0.content ++ t⟩
        let entry : NormalizedEntry := ⟨.assistantMessage, s.content⟩
        ({ st1 with assistant_text := some s },
          [.patch (if is_new then .add s0.index entry else .replace s0.index entry)])
    | .otherBlock => (st1, [])
  | .thought content =>
    let st1 := { st with assistant_text := none }
    match content with
    | .text t =>
      let is_new := st1.thinking_text.isNone
      match st1.thinking_text with
      | none =>
        let idx := st1.nextIndex
        let s : StreamingText := ⟨idx, "" ++ t⟩
        let entry : NormalizedEntry := ⟨.thinking, s.content⟩
        ({ st1 with thinking_text := some s, nextIndex := st1.nextIndex + 1 },
          [.patch (if is_new then .add idx entry else .replace idx entry)])
      | some s0 =>
        let s : StreamingText := ⟨s0.index, s0.content ++ t⟩
        let entry : NormalizedEntry := ⟨.thinking, s.content⟩
        ({ st1 with thinking_text := some s },
          [.patch (if is_new then .add s0.index entry else .replace s0.index entry)])
    | .otherBlock => (st1, [])
  | .plan entries =>
    let st1 := { st with assistant_text := none, thinking_text := none }
    ({ st1 with nextIndex := st1.nextIndex + 1 },
      [.patch (.add st1.nextIndex ⟨.systemMessage, planBody entries⟩)])
  | .availableCommands names =>
    ({ st with nextIndex := st.nextIndex + 1 },
      [.patch (.add st.nextIndex ⟨.systemMessage, commandsBody names⟩)])
  | .currentMode modeId =>
    ({ st with nextIndex := st.nextIndex + 1 },
      [.patch (.add st.nextIndex ⟨.systemMessage, "Current mode: " ++ modeId⟩)])
  | .requestPermission u =>
    match tryToolCallOfUpdate u with
    | some tc => handle_tool_call ext wt st tc
    | none => (st, [])
  | .toolCall tc => handle_tool_call ext wt st tc
  | .toolUpdate u =>
    let u2 := if u.fields.title.isNone then
        { u with fields := { u.fields with
            title := some (((lookupTool st.tool_states u.id).map
              (fun s => s.title)).getD "") } }
      else u
    match tryToolCallOfUpdate u2 with
    | some tc => handle_tool_call ext wt st tc
    | none => (st, [])
  | .user _ => (st, [])
  | .otherEv => (st, [])

/-- The normalizer loop over a list of parsed events, collecting all
outputs in order. -/
def runNorm (ext : ExtFns) (wt : String) (st : NormState) : List AcpEvent →
    NormState × List NormOut
  | [] => (st, [])
  | e :: rest =>
    let r1 := step ext wt st e
    let r2 := runNorm ext wt r1.1 rest
    (r2.1, r1.2 ++ r2.2)

/-- Observable actions of the client driver when the prompt call concludes
(harness.rs, bootstrap_acp_connection): emitting an event on the log
channel, or firing the exit one-shot. -/
inductive HarnessAct where
  | emit (e : AcpEvent)
  | fireExit

/-- Models an agent_client_protocol::Error returned by `prompt`: numeric
code, optional JSON data payload, and the rendered display message that
`format!("{e}")` produces. -/
structure PromptError where
  code : Int
  data : Option JsonVal
  message : String

/-- Outcome of `conn.prompt(req).await`.  `ok` carries the serialization of
the response's stop_reason, since the harness only forwards that string. -/
inductive PromptOutcome where
  | ok (stopReasonJson : String)
  | err (e : PromptError)

/-- Modelled from the agent_client_protocol crate (not under src/):
`ErrorCode::INTERNAL_ERROR.code`, the JSON-RPC internal error code. -/
def internalErrorCode : Int := -32603

/-- The benign-shutdown test from harness.rs: code equals INTERNAL_ERROR
and the JSON data equals the string "server shut down unexpectedly"
(serde_json::Value compares equal to a &str exactly when it is that JSON
string). -/
def is_benign_shutdown (e : PromptError) : Bool :=
  e.code == internalErrorCode &&
    (match e.data with
     | some (.str s) => s == "server shut down unexpectedly"
     | _ => false)

/-- The tail of the client driver after `conn.prompt` returns
(harness.rs): emit Done on success; emit nothing on the benign shutdown
error; emit Error otherwise; then fire the exit one-shot. -/
def conclude_prompt (r : PromptOutcome) : List HarnessAct :=
  (match r with
   | .ok s => [.emit (.done s)]
   | .err e =>
     if is_benign_shutdown e then []
     else [.emit (.error e.message)]) ++ [.fireExit]

/-- Number of exit-signal firings in a list of harness actions. -/
def countFireExit : List HarnessAct → Nat
  | [] => 0
  | .fireExit :: rest => countFireExit rest + 1
  | .emit _ :: rest => countFireExit rest

/-- Number of emitted Error events in a list of harness actions. -/
def countErrorEmits : List HarnessAct → Nat
  | [] => 0
  | .emit (.error _) :: rest => countErrorEmits rest + 1
  | _ :: rest => countErrorEmits rest

/-- Claim-side restatement of the merge policy of
PartialToolCallData::extend, written field by field after the spec's words
("take kind/status unless default, title/content/raw_input/raw_output only
when present/non-empty, path from the first location when any"); compared
against the source translation by `c4_extend_merge`. -/
def extendSpec (d : PartialToolCallData) (tc : ToolCall) (ext : ExtFns) (wt : String) :
    PartialToolCallData :=
  { index := d.index
    id := tc.id
    kind := if tc.kind ≠ defaultToolKind then tc.kind else d.kind
    title := if ¬ strIsEmpty tc.title then tc.title else d.title
    status := if tc.status ≠ defaultToolCallStatus then tc.status else d.status
    path := if ¬ tc.locations.isEmpty then tc.locations.head?.map (fun l => ext.mkRel l wt)
      else d.path
    content := if ¬ tc.content.isEmpty then tc.content else d.content
    raw_input := if tc.raw_input.isSome then tc.raw_input else d.raw_input
    raw_output := if tc.raw_output.isSome then tc.raw_output else d.raw_output }

/-- Claim-side restatement of the per-Diff-block file-change mapping of C7:
a Write when old_text is empty or absent, an Edit with the unified diff
otherwise, nothing for non-Diff blocks; compared against the source
translation by `c7_file_changes`. -/
def fileChangesSpec (ext : ExtFns) (tc : PartialToolCallData) : List FileChange :=
  tc.content.filterMap (fun c =>
    match c with
    | .diffBlock path old new =>
      let rel := if strIsEmpty path then tc.path.getD "" else path
      let old_text := old.getD ""
      some (if strIsEmpty old_text then FileChange.write new
        else FileChange.edit (ext.udiff rel old_text new) false)
    | _ => none)

/-- Execute-kind result exactly as claim C5 states it: a parsed raw_output
gives exit_status from exit_code (falling back to Success when completed)
and output stdout-else-stderr; NO raw_output with completed status gives
Success/None; every other case — including a present but unparseable
raw_output — gives None. -/
def execResultClaim (tc : PartialToolCallData) : Option CommandRunResult :=
  let completed : Bool := tc.status == .completed
  match tc.raw_output with
  | some v =>
    match parseShellOutput v with
    | some out =>
      some ⟨(match out.exit_code with
             | some c => some (.exitCode c)
             | none => if completed then some (.success true) else none),
            some ((out.stdout <|> out.stderr).getD "")⟩
    | none => none
  | none => if completed then some ⟨some (.success true), none⟩ else none

/-- Execute-kind result as the code actually behaves (the amended claim
C5): like `execResultClaim`, except that a present-but-unparseable
raw_output with completed status also yields Success/None. -/
def execResultAmended (tc : PartialToolCallData) : Option CommandRunResult :=
  let completed : Bool := tc.status == .completed
  match tc.raw_output with
  | some v =>
    match parseShellOutput v with
    | some out =>
      some ⟨(match out.exit_code with
             | some c => some (.exitCode c)
             | none => if completed then some (.success true) else none),
            some ((out.stdout <|> out.stderr).getD "")⟩
    | none => if completed then some ⟨some (.success true), none⟩ else none
  | none => if completed then some ⟨some (.success true), none⟩ else none

/-- Concatenation of a list of strings in order. -/
def strJoin : List String → String
  | [] => ""
  | s :: rest => s ++ strJoin rest

/-- A run of Message(Text) events carrying the given chunks. -/
def msgEvents (ts : List String) : List AcpEvent :=
  ts.map (fun t => .message (.text t))

/-- A run of Thought(Text) events carrying the given chunks. -/
def thoughtEvents (ts : List String) : List AcpEvent :=
  ts.map (fun t => .thought (.text t))

/-- Claim-side expected outputs for the later chunks of a streaming run:
each chunk emits a replace at the run's index whose content is the
accumulated concatenation so far. -/
def replacesSpec (ety : NormalizedEntryType) (idx : Nat) (acc : String) :
    List String → List NormOut
  | [] => []
  | t :: rest => .patch (.replace idx ⟨ety, acc ++ t⟩) :: replacesSpec ety idx (acc ++ t) rest

/-- Claim-side expected outputs for a whole streaming run started from a
closed slot: the first chunk emits an add at the fresh index, every later
chunk a replace at that index with the concatenation so far. -/
def runOutputsSpec (ety : NormalizedEntryType) (idx : Nat) : List String → List NormOut
  | [] => []
  | t :: rest => .patch (.add idx ⟨ety, t⟩) :: replacesSpec ety idx t rest

/-- The entry content carried by an output, if it is a patch. -/
def outContent : NormOut → Option String
  | .patch (.add _ e) => some e.content
  | .patch (.replace _ e) => some e.content
  | .sessionId _ => none

/-- Content of the last patch in an output list. -/
def lastContent (l : List NormOut) : Option String :=
  (l.filterMap outContent).getLast?

/-- Indices of the add patches in an output list: exactly the entry indices
handed out by the index provider. -/
def addIdxs (l : List NormOut) : List Nat :=
  l.filterMap (fun o =>
    match o with
    | .patch (.add i _) => some i
    | _ => none)

theorem str_append_empty (s : String) : s ++ "" = s := by
  cases s with
  | mk l => show String.mk (l ++ []) = String.mk l; rw [List.append_nil]

theorem str_append_assoc (a b c : String) : a ++ b ++ c = a ++ (b ++ c) := by
  cases a with
  | mk la =>
    cases b with
    | mk lb =>
      cases c with
      | mk lc =>
        show String.mk (la ++ lb ++ lc) = String.mk (la ++ (lb ++ lc))
        rw [List.append_assoc]

set_option maxHeartbeats 2000000 in
theorem extend_eq_spec (d : PartialToolCallData) (tc : ToolCall) (ext : ExtFns)
    (wt : String) : d.extend tc ext wt = extendSpec d tc ext wt := by
  cases d
  cases tc
  simp only [PartialToolCallData.extend, extendSpec]
  split_ifs <;> rfl

theorem lookup_insert (m : List (String × PartialToolCallData)) (id id2 : String)
    (d : PartialToolCallData) :
    lookupTool (insertTool m id d) id2 = if id = id2 then some d else lookupTool m id2 := by
  induction m with
  | nil =>
    by_cases h : id = id2 <;> simp [insertTool, lookupTool, h]
  | cons p rest ih =>
    obtain ⟨k, v⟩ := p
    by_cases hk : k = id
    · subst hk
      by_cases h2 : k = id2 <;> simp [insertTool, lookupTool, h2]
    · by_cases h2 : k = id2
      · subst h2
        have : ¬ id = k := fun h => hk h.symm
        simp [insertTool, lookupTool, hk, this]
      · simp [insertTool, lookupTool, hk, h2, ih]

theorem step_msg_open (ext : ExtFns) (wt : String) (st : NormState) (i : Nat)
    (acc t : String) (h : st.assistant_text = some ⟨i, acc⟩) :
    step ext wt st (.message (.text t)) =
      ({ st with thinking_text := none, assistant_text := some ⟨i, acc ++ t⟩ },
        [.patch (.replace i ⟨.assistantMessage, acc ++ t⟩)]) := by
  cases st with
  | mk ss a b tools ni =>
    simp only at h
    subst h
    simp [step]

theorem step_msg_fresh (ext : ExtFns) (wt : String) (st : NormState) (t : String)
    (h : st.assistant_text = none) :
    step ext wt st (.message (.text t)) =
      ({ st with
          thinking_text := none
          assistant_text := some ⟨st.nextIndex, t⟩
          nextIndex := st.nextIndex + 1 },
        [.patch (.add st.nextIndex ⟨.assistantMessage, t⟩)]) := by
  cases st with
  | mk ss a b tools ni =>
    simp only at h
    subst h
    simp [step]

theorem step_th_open (ext : ExtFns) (wt : String) (st : NormState) (i : Nat)
    (acc t : String) (h : st.thinking_text = some ⟨i, acc⟩) :
    step ext wt st (.thought (.text t)) =
      ({ st with assistant_text := none, thinking_text := some ⟨i, acc ++ t⟩ },
        [.patch (.replace i ⟨.thinking, acc ++ t⟩)]) := by
  cases st with
  | mk ss a b tools ni =>
    simp only at h
    subst h
    simp [step]

theorem step_th_fresh (ext : ExtFns) (wt : String) (st : NormState) (t : String)
    (h : st.thinking_text = none) :
    step ext wt st (.thought (.text t)) =
      ({ st with
          assistant_text := none
          thinking_text := some ⟨st.nextIndex, t⟩
          nextIndex := st.nextIndex + 1 },
        [.patch (.add st.nextIndex ⟨.thinking, t⟩)]) := by
  cases st with
  | mk ss a b tools ni =>
    simp only at h
    subst h
    simp [step]

theorem run_msgs_open (ext : ExtFns) (wt : String) :
    ∀ (ts : List String) (st : NormState) (i : Nat) (acc : String),
      st.assistant_text = some ⟨i, acc⟩ → st.thinking_text = none →
      runNorm ext wt st (msgEvents ts) =
        ({ st with assistant_text := some ⟨i, acc ++ strJoin ts⟩ },
          replacesSpec .assistantMessage i acc ts) := by
  intro ts
  induction ts with
  | nil =>
    intro st i acc h h2
    cases st with
    | mk ss a b tools ni =>
      simp only at h h2
      subst h
      subst h2
      simp [runNorm, msgEvents, replacesSpec, strJoin, str_append_empty]
  | cons t rest ih =>
    intro st i acc h h2
    cases st with
    | mk ss a b tools ni =>
      simp only at h h2
      subst h
      subst h2
      have hstep := step_msg_open ext wt ⟨ss, some ⟨i, acc⟩, none, tools, ni⟩ i acc t rfl
      have hrest := ih ⟨ss, some ⟨i, acc ++ t⟩, none, tools, ni⟩ i (acc ++ t) rfl rfl
      simp only [msgEvents, List.map] at hrest ⊢
      simp only [runNorm, hstep, hrest]
      simp [replacesSpec, strJoin, str_append_assoc]

theorem run_ths_open (ext : ExtFns) (wt : String) :
    ∀ (ts : List String) (st : NormState) (i : Nat) (acc : String),
      st.thinking_text = some ⟨i, acc⟩ → st.assistant_text = none →
      runNorm ext wt st (thoughtEvents ts) =
        ({ st with thinking_text := some ⟨i, acc ++ strJoin ts⟩ },
          replacesSpec .thinking i acc ts) := by
  intro ts
  induction ts with
  | nil =>
    intro st i acc h h2
    cases st with
    | mk ss a b tools ni =>
      simp only at h h2
      subst h
      subst h2
      simp [runNorm, thoughtEvents, replacesSpec, strJoin, str_append_empty]
  | cons t rest ih =>
    intro st i acc h h2
    cases st with
    | mk ss a b tools ni =>
      simp only at h h2
      subst h
      subst h2
      have hstep := step_th_open ext wt ⟨ss, none, some ⟨i, acc⟩, tools, ni⟩ i acc t rfl
      have hrest := ih ⟨ss, none, some ⟨i, acc ++ t⟩, tools, ni⟩ i (acc ++ t) rfl rfl
      simp only [thoughtEvents, List.map] at hrest ⊢
      simp only [runNorm, hstep, hrest]
      simp [replacesSpec, strJoin, str_append_assoc]

/-- Running concatenations emitted by a streaming run: the entry contents
of the successive patches. -/
def contentsFrom (acc : String) : List String → List String
  | [] => []
  | t :: rest => (acc ++ t) :: contentsFrom (acc ++ t) rest

theorem filterMap_replacesSpec (ety : NormalizedEntryType) (i : Nat) :
    ∀ (ts : List String) (acc : String),
      (replacesSpec ety i acc ts).filterMap outContent = contentsFrom acc ts := by
  intro ts
  induction ts with
  | nil => intro acc; simp [replacesSpec, contentsFrom]
  | cons t rest ih =>
    intro acc
    simp [replacesSpec, contentsFrom, outContent, ih]

theorem getLast_contentsFrom :
    ∀ (ts : List String) (acc : String), ts ≠ [] →
      (contentsFrom acc ts).getLast? = some (acc ++ strJoin ts) := by
  intro ts
  induction ts with
  | nil => intro acc h; exact absurd rfl h
  | cons t rest ih =>
    intro acc _
    cases rest with
    | nil => simp [contentsFrom, strJoin, str_append_empty]
    | cons t2 rs =>
      have ihh := ih (acc ++ t) (by simp)
      simp only [contentsFrom] at ihh ⊢
      rw [List.getLast?_cons_cons, ihh, str_append_assoc]
      simp [strJoin]

theorem lastContent_replacesSpec (ety : NormalizedEntryType) (i : Nat)
    (ts : List String) (acc : String) (h : ts ≠ []) :
    lastContent (replacesSpec ety i acc ts) = some (acc ++ strJoin ts) := by
  rw [lastContent, filterMap_replacesSpec, getLast_contentsFrom ts acc h]

theorem lastContent_runOutputsSpec (ety : NormalizedEntryType) (i : Nat)
    (ts : List String) (h : ts ≠ []) :
    lastContent (runOutputsSpec ety i ts) = some (strJoin ts) := by
  cases ts with
  | nil => exact absurd rfl h
  | cons t rest =>
    cases rest with
    | nil =>
      simp [runOutputsSpec, replacesSpec, lastContent, outContent, strJoin, str_append_empty]
    | cons t2 rs =>
      have h2 : (t2 :: rs : List String) ≠ [] := by simp
      simp only [runOutputsSpec, lastContent, List.filterMap_cons, outContent]
      have := lastContent_replacesSpec ety i (t2 :: rs) t h2
      simp only [lastContent, filterMap_replacesSpec] at this ⊢
      rw [contentsFrom] at *
      rw [List.getLast?_cons_cons]
      have h3 := getLast_contentsFrom (t2 :: rs) t h2
      simp only [contentsFrom] at h3
      rw [h3]
      simp [strJoin]

/-- C1 (amended): for any contiguous run of Message(Text) events processed
from a state whose assistant accumulator is closed, the first event
allocates the next entry index and emits an add patch, every later event
emits a replace at that same index, and the final emitted content is the
concatenation of all chunks in arrival order with entry type
AssistantMessage; symmetrically for Thought(Text) runs starting with the
thinking accumulator closed, with entry type Thinking.  (The original claim
quantified over every contiguous run; the closed-slot precondition is
forced by `c1_streaming_run_cex`: events such as Error do not close the
assistant slot, so a run that follows one continues the old entry.) -/
theorem c1_streaming_run (ext : ExtFns) (wt : String) (st : NormState) (ts : List String) :
    (st.assistant_text = none → ts ≠ [] →
      (runNorm ext wt st (msgEvents ts)).2 = runOutputsSpec .assistantMessage st.nextIndex ts ∧
      (runNorm ext wt st (msgEvents ts)).1.assistant_text = some ⟨st.nextIndex, strJoin ts⟩ ∧
      lastContent (runNorm ext wt st (msgEvents ts)).2 = some (strJoin ts)) ∧
    (st.thinking_text = none → ts ≠ [] →
      (runNorm ext wt st (thoughtEvents ts)).2 = runOutputsSpec .thinking st.nextIndex ts ∧
      (runNorm ext wt st (thoughtEvents ts)).1.thinking_text = some ⟨st.nextIndex, strJoin ts⟩ ∧
      lastContent (runNorm ext wt st (thoughtEvents ts)).2 = some (strJoin ts)) := by
  constructor
  · intro h hne
    cases ts with
    | nil => exact absurd rfl hne
    | cons t rest =>
      cases st with
      | mk ss a b tools ni =>
        simp only at h
        subst h
        have hstep := step_msg_fresh ext wt ⟨ss, none, b, tools, ni⟩ t rfl
        have hrest := run_msgs_open ext wt rest ⟨ss, some ⟨ni, t⟩, none, tools, ni + 1⟩
          ni t rfl rfl
        simp only [msgEvents, List.map] at hrest ⊢
        simp only [runNorm, hstep, hrest]
        refine ⟨rfl, rfl, ?_⟩
        have := lastContent_runOutputsSpec .assistantMessage ni (t :: rest) (by simp)
        simpa [runOutputsSpec, strJoin] using this
  · intro h hne
    cases ts with
    | nil => exact absurd rfl hne
    | cons t rest =>
      cases st with
      | mk ss a b tools ni =>
        simp only at h
        subst h
        have hstep := step_th_fresh ext wt ⟨ss, a, none, tools, ni⟩ t rfl
        have hrest := run_ths_open ext wt rest ⟨ss, none, some ⟨ni, t⟩, tools, ni + 1⟩
          ni t rfl rfl
        simp only [thoughtEvents, List.map] at hrest ⊢
        simp only [runNorm, hstep, hrest]
        refine ⟨rfl, rfl, ?_⟩
        have := lastContent_runOutputsSpec .thinking ni (t :: rest) (by simp)
        simpa [runOutputsSpec, strJoin] using this

/-- C1 counterexample: the claim as stated quantifies over every contiguous
run of Message(Text) events delimited by non-text events.  After
`Message(Text "a")` and an `Error` event (which does not close the
assistant slot), the single-event run `[Message(Text "b")]` emits a
replace at the old index with the accumulated content "ab" — not an add
patch at a fresh index with content "b" as the claim requires. -/
theorem c1_streaming_run_cex :
    (runNorm extSample "wt" (initNorm 0)
        [.message (.text "a"), .error "boom", .message (.text "b")]).2 =
      [.patch (.add 0 ⟨.assistantMessage, "a"⟩),
        .patch (.add 1 ⟨.errorMessage, "boom"⟩),
        .patch (.replace 0 ⟨.assistantMessage, "ab"⟩)] := by
  rfl

/-- C1 witness: the amended run property evaluated on the concrete run
["he", "llo"] from a fresh state with the index provider at 5. -/
theorem c1_streaming_run_witness :
    (runNorm extSample "wt" (initNorm 5) (msgEvents ["he", "llo"])).2 =
        runOutputsSpec .assistantMessage 5 ["he", "llo"] ∧
      (runNorm extSample "wt" (initNorm 5) (msgEvents ["he", "llo"])).1.assistant_text =
        some ⟨5, strJoin ["he", "llo"]⟩ ∧
      lastContent (runNorm extSample "wt" (initNorm 5) (msgEvents ["he", "llo"])).2 =
        some (strJoin ["he", "llo"]) :=
  (c1_streaming_run extSample "wt" (initNorm 5) ["he", "llo"]).1 rfl (by simp)

theorem handle_tool_call_closes (ext : ExtFns) (wt : String) (st : NormState)
    (tc : ToolCall) :
    (handle_tool_call ext wt st tc).1.assistant_text = none ∧
    (handle_tool_call ext wt st tc).1.thinking_text = none := by
  simp only [handle_tool_call]
  split <;> simp

theorem step_toolUpdate_as_handle (ext : ExtFns) (wt : String) (st : NormState)
    (u : ToolCallUpdate) :
    ∃ tc : ToolCall, step ext wt st (.toolUpdate u) = handle_tool_call ext wt st tc := by
  cases h : u.fields.title with
  | none =>
    refine ⟨?_, ?_⟩
    · exact (tryToolCallOfUpdate { u with fields := { u.fields with
        title := some (((lookupTool st.tool_states u.id).map (fun s => s.title)).getD "") } }).getD
        { id := "", kind := defaultToolKind, title := "", status := defaultToolCallStatus,
          locations := [], content := [], raw_input := none, raw_output := none }
    · simp [step, h, tryToolCallOfUpdate]
  | some t =>
    refine ⟨?_, ?_⟩
    · exact (tryToolCallOfUpdate u).getD
        { id := "", kind := defaultToolKind, title := "", status := defaultToolCallStatus,
          locations := [], content := [], raw_input := none, raw_output := none }
    · simp [step, h, tryToolCallOfUpdate]

/-- C2 (amended): processing Done, any tool-call event (ToolCall or
ToolUpdate), or Plan closes both streaming slots, so the next
Message(Text) or Thought(Text) starts a new entry at a fresh index;
AvailableCommands and CurrentMode, however, leave both slots exactly as
they were (the original claim included them among the closing events,
which `c2_close_slots_cex` refutes). -/
theorem c2_close_slots (ext : ExtFns) (wt : String) (st : NormState) :
    (∀ r, (step ext wt st (.done r)).1.assistant_text = none ∧
      (step ext wt st (.done r)).1.thinking_text = none) ∧
    (∀ tc, (step ext wt st (.toolCall tc)).1.assistant_text = none ∧
      (step ext wt st (.toolCall tc)).1.thinking_text = none) ∧
    (∀ u, (step ext wt st (.toolUpdate u)).1.assistant_text = none ∧
      (step ext wt st (.toolUpdate u)).1.thinking_text = none) ∧
    (∀ entries, (step ext wt st (.plan entries)).1.assistant_text = none ∧
      (step ext wt st (.plan entries)).1.thinking_text = none) ∧
    (∀ names, (step ext wt st (.availableCommands names)).1.assistant_text =
        st.assistant_text ∧
      (step ext wt st (.availableCommands names)).1.thinking_text = st.thinking_text) ∧
    (∀ m, (step ext wt st (.currentMode m)).1.assistant_text = st.assistant_text ∧
      (step ext wt st (.currentMode m)).1.thinking_text = st.thinking_text) := by
  refine ⟨?_, ?_, ?_, ?_, ?_, ?_⟩
  · intro r; simp [step]
  · intro tc; exact handle_tool_call_closes ext wt st tc
  · intro u
    obtain ⟨tc, htc⟩ := step_toolUpdate_as_handle ext wt st u
    rw [htc]
    exact handle_tool_call_closes ext wt st tc
  · intro entries; simp [step]
  · intro names; simp [step]
  · intro m; simp [step]

/-- C2 counterexample: AvailableCommands and CurrentMode do not close the
streaming slots.  After `Message(Text "a")`, an AvailableCommands event
and a CurrentMode event each leave the assistant accumulator open: the
following Message(Text) events emit replace patches at index 0 with the
accumulated contents "ab" and then "abc", instead of starting new entries
at fresh indices. -/
theorem c2_close_slots_cex :
    (runNorm extSample "wt" (initNorm 0)
        [.message (.text "a"), .availableCommands [], .message (.text "b"),
          .currentMode "m", .message (.text "c")]).2 =
      [.patch (.add 0 ⟨.assistantMessage, "a"⟩),
        .patch (.add 1 ⟨.systemMessage, "Available commands:\n"⟩),
        .patch (.replace 0 ⟨.assistantMessage, "ab"⟩),
        .patch (.add 2 ⟨.systemMessage, "Current mode: m"⟩),
        .patch (.replace 0 ⟨.assistantMessage, "abc"⟩)] := by
  rfl

/-- A concrete state with both streaming slots open, for witnesses. -/
def bothOpenState (n : Nat) : NormState :=
  { storedSessionId := true
    assistant_text := some ⟨0, "x"⟩
    thinking_text := some ⟨1, "y"⟩
    tool_states := []
    nextIndex := n }

/-- C2 witness: the closure facts evaluated at a concrete state with both
slots open — Done closes both, AvailableCommands leaves both open. -/
theorem c2_close_slots_witness :
    ((step extSample "wt" (bothOpenState 3) (.done "end")).1.assistant_text = none ∧
      (step extSample "wt" (bothOpenState 3) (.done "end")).1.thinking_text = none) ∧
    ((step extSample "wt" (bothOpenState 3)
        (.availableCommands ["go"])).1.assistant_text = (bothOpenState 3).assistant_text ∧
      (step extSample "wt" (bothOpenState 3)
        (.availableCommands ["go"])).1.thinking_text = (bothOpenState 3).thinking_text) :=
  ⟨(c2_close_slots extSample "wt" (bothOpenState 3)).1 "end",
    (c2_close_slots extSample "wt" (bothOpenState 3)).2.2.2.2.1 ["go"]⟩

/-- C9: a Message event whose content block is not a text block still
closes the open thinking accumulator and emits nothing, and a Thought
event with a non-text block still closes the open assistant accumulator
and emits nothing; consequently the next text chunk of the opposite kind
starts a new entry with an add patch at a fresh index. -/
theorem c9_nontext_closes (ext : ExtFns) (wt : String) (st : NormState) :
    (step ext wt st (.message .otherBlock) = ({ st with thinking_text := none }, [])) ∧
    (step ext wt st (.thought .otherBlock) = ({ st with assistant_text := none }, [])) ∧
    (∀ t, (step ext wt (step ext wt st (.message .otherBlock)).1 (.thought (.text t))).2 =
      [.patch (.add (step ext wt st (.message .otherBlock)).1.nextIndex ⟨.thinking, t⟩)]) ∧
    (∀ t, (step ext wt (step ext wt st (.thought .otherBlock)).1 (.message (.text t))).2 =
      [.patch (.add (step ext wt st (.thought .otherBlock)).1.nextIndex
        ⟨.assistantMessage, t⟩)]) := by
  have h1 : step ext wt st (.message .otherBlock) = ({ st with thinking_text := none }, []) := by
    simp [step]
  have h2 : step ext wt st (.thought .otherBlock) = ({ st with assistant_text := none }, []) := by
    simp [step]
  refine ⟨h1, h2, ?_, ?_⟩
  · intro t
    rw [h1, step_th_fresh ext wt ({ st with thinking_text := none }) t rfl]
  · intro t
    rw [h2, step_msg_fresh ext wt ({ st with assistant_text := none }) t rfl]

/-- C9 witness: the closure facts evaluated at a concrete state with both
slots open. -/
theorem c9_nontext_closes_witness :
    (step extSample "wt" (bothOpenState 7) (.message .otherBlock) =
      ({ bothOpenState 7 with thinking_text := none }, [])) ∧
    (step extSample "wt" (bothOpenState 7) (.thought .otherBlock) =
      ({ bothOpenState 7 with assistant_text := none }, [])) :=
  ⟨(c9_nontext_closes extSample "wt" (bothOpenState 7)).1,
    (c9_nontext_closes extSample "wt" (bothOpenState 7)).2.1⟩

/-- The normalized entry handle_tool_call builds from the merged record. -/
def toolEntryOf (ext : ExtFns) (d : PartialToolCallData) : NormalizedEntry :=
  ⟨.toolUse d.title (map_to_action_type ext d) (convert_tool_status d.status),
    get_tool_content d⟩

theorem extend_index (d : PartialToolCallData) (tc : ToolCall) (ext : ExtFns)
    (wt : String) : (d.extend tc ext wt).index = d.index := by
  rw [extend_eq_spec]
  rfl

theorem handle_tool_call_new (ext : ExtFns) (wt : String) (st : NormState) (tc : ToolCall)
    (h : lookupTool st.tool_states tc.id = none) :
    handle_tool_call ext wt st tc =
      ({ storedSessionId := st.storedSessionId
         assistant_text := none
         thinking_text := none
         tool_states := insertTool st.tool_states tc.id
           { PartialToolCallData.dflt.extend tc ext wt with index := st.nextIndex }
         nextIndex := st.nextIndex + 1 },
        [.patch (.add st.nextIndex (toolEntryOf ext
          { PartialToolCallData.dflt.extend tc ext wt with index := st.nextIndex }))]) := by
  cases st with
  | mk ss a b tools ni =>
    simp only at h
    simp [handle_tool_call, h, toolEntryOf]

theorem handle_tool_call_seen (ext : ExtFns) (wt : String) (st : NormState) (tc : ToolCall)
    (d : PartialToolCallData) (h : lookupTool st.tool_states tc.id = some d) :
    handle_tool_call ext wt st tc =
      ({ storedSessionId := st.storedSessionId
         assistant_text := none
         thinking_text := none
         tool_states := insertTool st.tool_states tc.id (d.extend tc ext wt)
         nextIndex := st.nextIndex },
        [.patch (.replace (d.extend tc ext wt).index
          (toolEntryOf ext (d.extend tc ext wt)))]) := by
  cases st with
  | mk ss a b tools ni =>
    simp only at h
    simp [handle_tool_call, h, toolEntryOf]

theorem handle_preserves_index (ext : ExtFns) (wt : String) (st : NormState)
    (tc : ToolCall) (id : String) (d : PartialToolCallData)
    (h : lookupTool st.tool_states id = some d) :
    ∃ d2, lookupTool (handle_tool_call ext wt st tc).1.tool_states id = some d2 ∧
      d2.index = d.index := by
  by_cases hid : tc.id = id
  · subst hid
    rw [handle_tool_call_seen ext wt st tc d h]
    refine ⟨d.extend tc ext wt, ?_, extend_index d tc ext wt⟩
    simp [lookup_insert]
  · cases hl : lookupTool st.tool_states tc.id with
    | none =>
      rw [handle_tool_call_new ext wt st tc hl]
      refine ⟨d, ?_, rfl⟩
      simp [lookup_insert, hid, h]
    | some d0 =>
      rw [handle_tool_call_seen ext wt st tc d0 hl]
      refine ⟨d, ?_, rfl⟩
      simp [lookup_insert, hid, h]

theorem step_preserves_index (ext : ExtFns) (wt : String) (st : NormState) (e : AcpEvent)
    (id : String) (d : PartialToolCallData) (h : lookupTool st.tool_states id = some d) :
    ∃ d2, lookupTool (step ext wt st e).1.tool_states id = some d2 ∧
      d2.index = d.index := by
  cases e with
  | sessionStart s =>
    simp only [step]
    split <;> exact ⟨d, h, rfl⟩
  | error msg => exact ⟨d, h, rfl⟩
  | done r => exact ⟨d, h, rfl⟩
  | message c =>
    cases c with
    | text t =>
      cases hA : st.assistant_text with
      | none =>
        rw [step_msg_fresh ext wt st t hA]
        exact ⟨d, h, rfl⟩
      | some s0 =>
        rw [step_msg_open ext wt st s0.index s0.content t (by rw [hA])]
        exact ⟨d, h, rfl⟩
    | otherBlock => exact ⟨d, h, rfl⟩
  | thought c =>
    cases c with
    | text t =>
      cases hA : st.thinking_text with
      | none =>
        rw [step_th_fresh ext wt st t hA]
        exact ⟨d, h, rfl⟩
      | some s0 =>
        rw [step_th_open ext wt st s0.index s0.content t (by rw [hA])]
        exact ⟨d, h, rfl⟩
    | otherBlock => exact ⟨d, h, rfl⟩
  | plan entries => exact ⟨d, h, rfl⟩
  | availableCommands names => exact ⟨d, h, rfl⟩
  | currentMode m => exact ⟨d, h, rfl⟩
  | requestPermission u =>
    cases htc : tryToolCallOfUpdate u with
    | none => simp only [step, htc]; exact ⟨d, h, rfl⟩
    | some tc =>
      simp only [step, htc]
      exact handle_preserves_index ext wt st tc id d h
  | toolCall tc => exact handle_preserves_index ext wt st tc id d h
  | toolUpdate u =>
    obtain ⟨tc, htc⟩ := step_toolUpdate_as_handle ext wt st u
    rw [htc]
    exact handle_preserves_index ext wt st tc id d h
  | user m => exact ⟨d, h, rfl⟩
  | otherEv => exact ⟨d, h, rfl⟩

theorem run_preserves_index (ext : ExtFns) (wt : String) :
    ∀ (es : List AcpEvent) (st : NormState) (id : String) (d : PartialToolCallData),
      lookupTool st.tool_states id = some d →
      ∃ d2, lookupTool (runNorm ext wt st es).1.tool_states id = some d2 ∧
        d2.index = d.index := by
  intro es
  induction es with
  | nil => intro st id d h; exact ⟨d, h, rfl⟩
  | cons e rest ih =>
    intro st id d h
    obtain ⟨d1, h1, hi1⟩ := step_preserves_index ext wt st e id d h
    obtain ⟨d2, h2, hi2⟩ := ih (step ext wt st e).1 id d1 h1
    exact ⟨d2, h2, by rw [hi2, hi1]⟩

theorem handle_window (ext : ExtFns) (wt : String) (st : NormState) (tc : ToolCall) :
    st.nextIndex ≤ (handle_tool_call ext wt st tc).1.nextIndex ∧
    (∀ i ∈ addIdxs (handle_tool_call ext wt st tc).2,
      st.nextIndex ≤ i ∧ i < (handle_tool_call ext wt st tc).1.nextIndex) ∧
    List.Pairwise (· < ·) (addIdxs (handle_tool_call ext wt st tc).2) := by
  cases hl : lookupTool st.tool_states tc.id with
  | none =>
    rw [handle_tool_call_new ext wt st tc hl]
    simp [addIdxs]
  | some d =>
    rw [handle_tool_call_seen ext wt st tc d hl]
    simp [addIdxs]

theorem step_window (ext : ExtFns) (wt : String) (st : NormState) (e : AcpEvent) :
    st.nextIndex ≤ (step ext wt st e).1.nextIndex ∧
    (∀ i ∈ addIdxs (step ext wt st e).2,
      st.nextIndex ≤ i ∧ i < (step ext wt st e).1.nextIndex) ∧
    List.Pairwise (· < ·) (addIdxs (step ext wt st e).2) := by
  cases e with
  | sessionStart s =>
    simp only [step]
    split <;> simp [addIdxs]
  | error msg => simp [step, addIdxs]
  | done r => simp [step, addIdxs]
  | message c =>
    cases c with
    | text t =>
      cases hA : st.assistant_text with
      | none => rw [step_msg_fresh ext wt st t hA]; simp [addIdxs]
      | some s0 =>
        rw [step_msg_open ext wt st s0.index s0.content t (by rw [hA])]
        simp [addIdxs]
    | otherBlock => simp [step, addIdxs]
  | thought c =>
    cases c with
    | text t =>
      cases hA : st.thinking_text with
      | none => rw [step_th_fresh ext wt st t hA]; simp [addIdxs]
      | some s0 =>
        rw [step_th_open ext wt st s0.index s0.content t (by rw [hA])]
        simp [addIdxs]
    | otherBlock => simp [step, addIdxs]
  | plan entries => simp [step, addIdxs]
  | availableCommands names => simp [step, addIdxs]
  | currentMode m => simp [step, addIdxs]
  | requestPermission u =>
    cases htc : tryToolCallOfUpdate u with
    | none => simp [step, htc, addIdxs]
    | some tc =>
      simp only [step, htc]
      exact handle_window ext wt st tc
  | toolCall tc => exact handle_window ext wt st tc
  | toolUpdate u =>
    obtain ⟨tc, htc⟩ := step_toolUpdate_as_handle ext wt st u
    rw [htc]
    exact handle_window ext wt st tc
  | user m => simp [step, addIdxs]
  | otherEv => simp [step, addIdxs]

theorem addIdxs_append (l1 l2 : List NormOut) :
    addIdxs (l1 ++ l2) = addIdxs l1 ++ addIdxs l2 := by
  simp [addIdxs, List.filterMap_append]

theorem run_mono (ext : ExtFns) (wt : String) :
    ∀ (es : List AcpEvent) (st : NormState),
      st.nextIndex ≤ (runNorm ext wt st es).1.nextIndex := by
  intro es
  induction es with
  | nil => intro st; exact Nat.le_refl _
  | cons e rest ih =>
    intro st
    exact Nat.le_trans (step_window ext wt st e).1 (ih (step ext wt st e).1)

theorem run_addIdxs_lb (ext : ExtFns) (wt : String) :
    ∀ (es : List AcpEvent) (st : NormState) (i : Nat),
      i ∈ addIdxs (runNorm ext wt st es).2 → st.nextIndex ≤ i := by
  intro es
  induction es with
  | nil => intro st i hm; simp [runNorm, addIdxs] at hm
  | cons e rest ih =>
    intro st i hm
    simp only [runNorm, addIdxs_append, List.mem_append] at hm
    cases hm with
    | inl h1 => exact ((step_window ext wt st e).2.1 i h1).1
    | inr h2 => exact Nat.le_trans (step_window ext wt st e).1 (ih (step ext wt st e).1 i h2)

theorem run_addIdxs_pairwise (ext : ExtFns) (wt : String) :
    ∀ (es : List AcpEvent) (st : NormState),
      List.Pairwise (· < ·) (addIdxs (runNorm ext wt st es).2) := by
  intro es
  induction es with
  | nil => intro st; simp [runNorm, addIdxs]
  | cons e rest ih =>
    intro st
    simp only [runNorm, addIdxs_append]
    rw [List.pairwise_append]
    refine ⟨(step_window ext wt st e).2.2, ih (step ext wt st e).1, ?_⟩
    intro i hi j hj
    exact Nat.lt_of_lt_of_le ((step_window ext wt st e).2.1 i hi).2
      (run_addIdxs_lb ext wt rest (step ext wt st e).1 j hj)

/-- C3: for every tool-call ID, an entry index is assigned exactly once at
the first observation (handle_tool_call emits an add patch at the freshly
allocated index and advances the provider), every later call for that ID
emits a replace at the same stored index and leaves the provider alone,
the stored index of every ID survives every event unchanged, and the add
indices produced over any whole run are strictly increasing — hence never
reused.  The entry-index provider itself is modelled from the spec as a
monotonic counter. -/
theorem c3_tool_indices (ext : ExtFns) (wt : String) :
    (∀ st tc, lookupTool st.tool_states tc.id = none →
      ∃ e, (handle_tool_call ext wt st tc).2 = [.patch (.add st.nextIndex e)] ∧
        (lookupTool (handle_tool_call ext wt st tc).1.tool_states tc.id).map
          (fun d => d.index) = some st.nextIndex ∧
        (handle_tool_call ext wt st tc).1.nextIndex = st.nextIndex + 1) ∧
    (∀ st tc d, lookupTool st.tool_states tc.id = some d →
      ∃ e, (handle_tool_call ext wt st tc).2 = [.patch (.replace d.index e)] ∧
        (lookupTool (handle_tool_call ext wt st tc).1.tool_states tc.id).map
          (fun d2 => d2.index) = some d.index ∧
        (handle_tool_call ext wt st tc).1.nextIndex = st.nextIndex) ∧
    (∀ st es id d, lookupTool st.tool_states id = some d →
      ∃ d2, lookupTool (runNorm ext wt st es).1.tool_states id = some d2 ∧
        d2.index = d.index) ∧
    (∀ st es, List.Pairwise (· < ·) (addIdxs (runNorm ext wt st es).2)) := by
  refine ⟨?_, ?_, ?_, ?_⟩
  · intro st tc h
    rw [handle_tool_call_new ext wt st tc h]
    refine ⟨_, rfl, ?_, rfl⟩
    simp [lookup_insert]
  · intro st tc d h
    rw [handle_tool_call_seen ext wt st tc d h]
    refine ⟨_, by rw [extend_index], ?_, rfl⟩
    simp [lookup_insert, extend_index]
  · intro st es id d h
    exact run_preserves_index ext wt es st id d h
  · intro st es
    exact run_addIdxs_pairwise ext wt es st

/-- A concrete tool call used by witnesses: an Execute tool in progress. -/
def sampleExecCall : ToolCall :=
  { id := "exec-1"
    kind := .execute
    title := "ls -la (pwd)"
    status := .inProgress
    locations := []
    content := []
    raw_input := none
    raw_output := none }

/-- C3 witness: the first observation of id "exec-1" from the empty table
allocates index 0, emits an add patch there, stores index 0, and advances
the provider to 1. -/
theorem c3_tool_indices_witness :
    ∃ e, (handle_tool_call extSample "wt" (initNorm 0) sampleExecCall).2 =
        [.patch (.add 0 e)] ∧
      (lookupTool (handle_tool_call extSample "wt" (initNorm 0)
          sampleExecCall).1.tool_states sampleExecCall.id).map
        (fun d => d.index) = some 0 ∧
      (handle_tool_call extSample "wt" (initNorm 0) sampleExecCall).1.nextIndex = 0 + 1 :=
  (c3_tool_indices extSample "wt").1 (initNorm 0) sampleExecCall rfl

/-- C4: the merge PartialToolCallData::extend always takes the new id,
takes kind and status only when they differ from their default sentinels
(Other and Pending), takes title, content, raw_input, raw_output only when
non-empty/present, and takes path from the first location (rewritten
worktree-relative) only when locations is non-empty — so a default or
empty field in an update never overwrites an accumulated value.  The full
behaviour equals the field-by-field merge policy `extendSpec` written from
the spec. -/
theorem c4_extend_merge (d : PartialToolCallData) (tc : ToolCall) (ext : ExtFns)
    (wt : String) :
    d.extend tc ext wt = extendSpec d tc ext wt ∧
    (d.extend tc ext wt).id = tc.id ∧
    (tc.kind = defaultToolKind → (d.extend tc ext wt).kind = d.kind) ∧
    (strIsEmpty tc.title = true → (d.extend tc ext wt).title = d.title) ∧
    (tc.status = defaultToolCallStatus → (d.extend tc ext wt).status = d.status) ∧
    (tc.locations = [] → (d.extend tc ext wt).path = d.path) ∧
    (tc.content = [] → (d.extend tc ext wt).content = d.content) ∧
    (tc.raw_input = none → (d.extend tc ext wt).raw_input = d.raw_input) ∧
    (tc.raw_output = none → (d.extend tc ext wt).raw_output = d.raw_output) ∧
    (tc.locations ≠ [] → (d.extend tc ext wt).path =
      tc.locations.head?.map (fun l => ext.mkRel l wt)) := by
  refine ⟨extend_eq_spec d tc ext wt, ?_, ?_, ?_, ?_, ?_, ?_, ?_, ?_, ?_⟩
  · rw [extend_eq_spec]; rfl
  · intro h; rw [extend_eq_spec]; simp [extendSpec, h]
  · intro h; rw [extend_eq_spec]; simp [extendSpec, h]
  · intro h; rw [extend_eq_spec]; simp [extendSpec, h]
  · intro h; rw [extend_eq_spec]; simp [extendSpec, h]
  · intro h; rw [extend_eq_spec]; simp [extendSpec, h]
  · intro h; rw [extend_eq_spec]; simp [extendSpec, h]
  · intro h; rw [extend_eq_spec]; simp [extendSpec, h]
  · intro h
    rw [extend_eq_spec]
    cases hl : tc.locations with
    | nil => exact absurd hl h
    | cons a as => simp [extendSpec, hl]

/-- A concrete accumulated record with every field non-default, for the C4
witness. -/
def samplePartial : PartialToolCallData :=
  { index := 4
    id := "old-1"
    kind := .execute
    title := "keep me"
    status := .completed
    path := some "p.rs"
    content := [.terminalBlock]
    raw_input := some (.num 1)
    raw_output := some (.str "o") }

/-- A concrete update whose every optional field is default or empty, for
the C4 witness. -/
def emptyUpdateCall : ToolCall :=
  { id := "exec-2"
    kind := defaultToolKind
    title := ""
    status := defaultToolCallStatus
    locations := []
    content := []
    raw_input := none
    raw_output := none }

/-- C4 witness: merging an all-default update into a fully populated
record changes only the id. -/
theorem c4_extend_merge_witness :
    (samplePartial.extend emptyUpdateCall extSample "wt").kind = samplePartial.kind ∧
    (samplePartial.extend emptyUpdateCall extSample "wt").title = samplePartial.title ∧
    (samplePartial.extend emptyUpdateCall extSample "wt").status = samplePartial.status ∧
    (samplePartial.extend emptyUpdateCall extSample "wt").path = samplePartial.path ∧
    (samplePartial.extend emptyUpdateCall extSample "wt").raw_output =
      samplePartial.raw_output :=
  ⟨(c4_extend_merge samplePartial emptyUpdateCall extSample "wt").2.2.1 rfl,
    (c4_extend_merge samplePartial emptyUpdateCall extSample "wt").2.2.2.1 rfl,
    (c4_extend_merge samplePartial emptyUpdateCall extSample "wt").2.2.2.2.1 rfl,
    (c4_extend_merge samplePartial emptyUpdateCall extSample "wt").2.2.2.2.2.1 rfl,
    (c4_extend_merge samplePartial emptyUpdateCall extSample "wt").2.2.2.2.2.2.2.2.1 rfl⟩

/-- C5 (amended): for every Execute-kind tool call the emitted action is
CommandRun with command parse_execute_command(title), and the result is:
when raw_output parses as a shell output object, exit_status ExitCode(code)
if exit_code is present else Success when status is Completed, with output
stdout falling back to stderr; when raw_output is absent OR present but
unparseable, Success/None if the status is Completed and None otherwise.
(The original claim gave None for an unparseable raw_output even when
completed; `c5_execute_action_cex` refutes that.) -/
theorem c5_execute_action (ext : ExtFns) (d : PartialToolCallData)
    (h : d.kind = .execute) :
    map_to_action_type ext d =
      .commandRun (parse_execute_command d.title) (execResultAmended d) := by
  cases d with
  | mk index id kind title status path content raw_input raw_output =>
    simp only at h
    subst h
    cases raw_output with
    | none => simp [map_to_action_type, execResultAmended]
    | some v =>
      cases hp : parseShellOutput v with
      | none => simp [map_to_action_type, execResultAmended, hp]
      | some out =>
        cases out with
        | mk ec so se =>
          cases ec <;> simp [map_to_action_type, execResultAmended, hp]

/-- A completed Execute tool call whose raw_output is a JSON string, which
serde fails to parse as a shell output object. -/
def badOutputCall : PartialToolCallData :=
  { index := 0
    id := "exec-9"
    kind := .execute
    title := "ls -la (in /tmp)"
    status := .completed
    path := none
    content := []
    raw_input := none
    raw_output := some (.str "oops") }

/-- C5 counterexample: on a completed Execute call whose raw_output is
present but does not parse as a shell output object, the code emits the
result Success/None, while the claim as stated ("otherwise the result is
None") requires None. -/
theorem c5_execute_action_cex :
    map_to_action_type extSample badOutputCall =
      .commandRun "ls -la" (some ⟨some (.success true), none⟩) ∧
    execResultClaim badOutputCall = none := by
  constructor
  · rfl
  · rfl

/-- A completed Execute tool call with a parseable shell output, matching
the spec's literal scenario 3. -/
def shellOutputCall : PartialToolCallData :=
  { index := 0
    id := "exec-1"
    kind := .execute
    title := "ls -la (pwd=/tmp)"
    status := .completed
    path := none
    content := []
    raw_input := none
    raw_output := some (.obj [("exit_code", .num 0), ("stdout", .str "a\nb")]) }

/-- C5 witness: the amended mapping evaluated on the spec's scenario 3
input — command "ls -la", exit status ExitCode 0, output "a\nb". -/
theorem c5_execute_action_witness :
    map_to_action_type extSample shellOutputCall =
      .commandRun (parse_execute_command shellOutputCall.title)
        (execResultAmended shellOutputCall) ∧
    parse_execute_command shellOutputCall.title = "ls -la" ∧
    execResultAmended shellOutputCall = some ⟨some (.exitCode 0), some "a\nb"⟩ :=
  ⟨c5_execute_action extSample shellOutputCall rfl, rfl, rfl⟩

theorem benign_iff (e : PromptError) :
    is_benign_shutdown e = true ↔
      (e.code = internalErrorCode ∧
        e.data = some (.str "server shut down unexpectedly")) := by
  cases e with
  | mk c dt m =>
    simp only [is_benign_shutdown]
    cases dt with
    | none => simp
    | some j =>
      cases j <;> simp [Bool.and_eq_true]

/-- C6: when the prompt call fails with code INTERNAL_ERROR and data equal
to the JSON string "server shut down unexpectedly", no Error event is
emitted and the exit one-shot still fires; any other error emits
Error(message); success emits Done(serialized stop_reason); in every case
the exit signal fires exactly once, after the outcome event. -/
theorem c6_prompt_conclusion :
    (∀ e : PromptError, is_benign_shutdown e = true ↔
      (e.code = internalErrorCode ∧
        e.data = some (.str "server shut down unexpectedly"))) ∧
    (∀ e : PromptError, is_benign_shutdown e = true →
      conclude_prompt (.err e) = [.fireExit]) ∧
    (∀ e : PromptError, is_benign_shutdown e = false →
      conclude_prompt (.err e) = [.emit (.error e.message), .fireExit]) ∧
    (∀ s, conclude_prompt (.ok s) = [.emit (.done s), .fireExit]) ∧
    (∀ r, countFireExit (conclude_prompt r) = 1 ∧
      (conclude_prompt r).getLast? = some .fireExit) ∧
    (∀ e : PromptError, is_benign_shutdown e = true →
      countErrorEmits (conclude_prompt (.err e)) = 0) := by
  refine ⟨benign_iff, ?_, ?_, ?_, ?_, ?_⟩
  · intro e h; simp [conclude_prompt, h]
  · intro e h; simp [conclude_prompt, h]
  · intro s; rfl
  · intro r
    cases r with
    | ok s => simp [conclude_prompt, countFireExit]
    | err e =>
      by_cases h : is_benign_shutdown e <;>
        simp [conclude_prompt, h, countFireExit]
  · intro e h; simp [conclude_prompt, h, countErrorEmits]

/-- The benign shutdown error of the spec's scenario 6. -/
def benignErr : PromptError :=
  ⟨-32603, some (.str "server shut down unexpectedly"), "Internal error"⟩

/-- An ordinary prompt error. -/
def otherErr : PromptError := ⟨-32000, none, "boom"⟩

/-- C6 witness: on the concrete benign shutdown error only the exit signal
fires; an ordinary error emits Error then fires; success emits Done then
fires; the exit count is one in each case. -/
theorem c6_prompt_conclusion_witness :
    conclude_prompt (.err benignErr) = [.fireExit] ∧
    conclude_prompt (.err otherErr) = [.emit (.error otherErr.message), .fireExit] ∧
    conclude_prompt (.ok "end_turn") = [.emit (.done "end_turn"), .fireExit] ∧
    countFireExit (conclude_prompt (.err benignErr)) = 1 :=
  ⟨c6_prompt_conclusion.2.1 benignErr rfl,
    c6_prompt_conclusion.2.2.1 otherErr rfl,
    c6_prompt_conclusion.2.2.2.1 "end_turn",
    (c6_prompt_conclusion.2.2.2.2.1 (.err benignErr)).1⟩

theorem extractFileChangesGo_eq (ext : ExtFns) (p : Option String) :
    ∀ l : List ToolCallContent, extractFileChangesGo ext p l = l.filterMap (fun c =>
      match c with
      | .diffBlock path old new =>
        let rel := if strIsEmpty path then p.getD "" else path
        let old_text := old.getD ""
        some (if strIsEmpty old_text then FileChange.write new
          else FileChange.edit (ext.udiff rel old_text new) false)
      | _ => none) := by
  intro l
  induction l with
  | nil => rfl
  | cons c rest ih =>
    cases c with
    | contentBlock b => simp [extractFileChangesGo, ih]
    | terminalBlock => simp [extractFileChangesGo, ih]
    | diffBlock path old new =>
      by_cases hp : strIsEmpty path <;>
        by_cases ho : strIsEmpty (old.getD "") <;>
          simp [extractFileChangesGo, ih, hp, ho]

/-- C7: for every Edit-kind tool call the file changes are computed per
Diff content block — a Write carrying new_text when old_text is empty or
absent, an Edit carrying unified_diff(path, old_text, new_text) with
has_line_numbers false otherwise (the path falling back to the tool call's
path when the block's is empty) — and non-Diff blocks contribute no
change: extract_file_changes equals the claim-side per-block mapping
`fileChangesSpec`. -/
theorem c7_file_changes (ext : ExtFns) (tc : PartialToolCallData) :
    extract_file_changes ext tc = fileChangesSpec ext tc := by
  rw [extract_file_changes, fileChangesSpec]
  exact extractFileChangesGo_eq ext tc.path tc.content

/-- The Edit tool call of the spec's scenario 4, with an extra text block
and an extra no-old-text diff block. -/
def editCall : PartialToolCallData :=
  { index := 0
    id := "e1"
    kind := .edit
    title := "edit foo.rs"
    status := .pending
    path := some "foo.rs"
    content := [.diffBlock "foo.rs" (some "a") "b", .contentBlock (.text "x"),
      .diffBlock "" none "w"]
    raw_input := none
    raw_output := none }

/-- C7 witness: on the concrete Edit call, the first diff block yields an
Edit change with the unified diff of ("foo.rs", "a", "b"), the text block
yields nothing, and the old-text-free diff block yields a Write. -/
theorem c7_file_changes_witness :
    extract_file_changes extSample editCall = fileChangesSpec extSample editCall ∧
    fileChangesSpec extSample editCall =
      [.edit (extSample.udiff "foo.rs" "a" "b") false, .write "w"] :=
  ⟨c7_file_changes extSample editCall, rfl⟩

theorem lastHyphenSplit_shape :
    ∀ (l h t : List Char), lastHyphenSplit l = some (h, t) → l = h ++ '-' :: t := by
  intro l
  induction l with
  | nil => intro h t hs; simp [lastHyphenSplit] at hs
  | cons c rest ih =>
    intro h t hs
    simp only [lastHyphenSplit] at hs
    cases hr : lastHyphenSplit rest with
    | some p =>
      obtain ⟨h2, t2⟩ := p
      rw [hr] at hs
      injection hs with hs2
      injection hs2 with hh ht
      rw [← hh, ← ht]
      have := ih h2 t2 hr
      simp [this]
    | none =>
      rw [hr] at hs
      by_cases hc : c = '-'
      · subst hc
        rw [if_pos rfl] at hs
        injection hs with hs2
        injection hs2 with hh ht
        rw [← hh, ← ht]
        simp
      · rw [if_neg hc] at hs
        exact absurd hs (by simp)

theorem lastHyphenSplit_none :
    ∀ l : List Char, lastHyphenSplit l = none ↔ '-' ∉ l := by
  intro l
  induction l with
  | nil => simp [lastHyphenSplit]
  | cons c rest ih =>
    simp only [lastHyphenSplit]
    cases hr : lastHyphenSplit rest with
    | some p =>
      obtain ⟨h2, t2⟩ := p
      have hshape := lastHyphenSplit_shape rest h2 t2 hr
      constructor
      · intro hcontra; simp at hcontra
      · intro hnot
        exfalso
        exact hnot (by simp [hshape])
    | none =>
      have hnr : '-' ∉ rest := ih.mp hr
      by_cases hc : c = '-'
      · subst hc
        simp
      · simp only [if_neg hc]
        simp only [List.mem_cons, not_or]
        constructor
        · intro _; exact ⟨fun hcc => hc hcc.symm, hnr⟩
        · intro _; trivial

theorem lastHyphenSplit_no_hyphen_tail :
    ∀ (l h t : List Char), lastHyphenSplit l = some (h, t) → '-' ∉ t := by
  intro l
  induction l with
  | nil => intro h t hs; simp [lastHyphenSplit] at hs
  | cons c rest ih =>
    intro h t hs
    simp only [lastHyphenSplit] at hs
    cases hr : lastHyphenSplit rest with
    | some p =>
      obtain ⟨h2, t2⟩ := p
      rw [hr] at hs
      injection hs with hs2
      injection hs2 with hh ht
      exact ht ▸ ih h2 t2 hr
    | none =>
      rw [hr] at hs
      by_cases hc : c = '-'
      · subst hc
        rw [if_pos rfl] at hs
        injection hs with hs2
        injection hs2 with hh ht
        exact ht ▸ (lastHyphenSplit_none rest).mp hr
      · rw [if_neg hc] at hs
        exact absurd hs (by simp)

theorem lastHyphenSplit_complete :
    ∀ (h l t : List Char), l = h ++ '-' :: t → '-' ∉ t →
      lastHyphenSplit l = some (h, t) := by
  intro h
  induction h with
  | nil =>
    intro l t hl hnot
    subst hl
    show lastHyphenSplit ('-' :: t) = some ([], t)
    simp only [lastHyphenSplit]
    rw [(lastHyphenSplit_none t).mpr hnot]
    simp
  | cons c h2 ih =>
    intro l t hl hnot
    subst hl
    have hrec := ih (h2 ++ '-' :: t) t rfl hnot
    show lastHyphenSplit (c :: (h2 ++ '-' :: t)) = some (c :: h2, t)
    simp only [lastHyphenSplit]
    rw [hrec]

/-- C8 (amended): extract_tool_name_from_id(id) returns Some(head) exactly
when id decomposes as head ++ "-" ++ t where t is a POSSIBLY EMPTY run of
ASCII digits containing no further hyphen — i.e. the claim's pattern
<head>-<digits>$ with the digit suffix allowed to be empty.  (The original
claim required a non-empty digit suffix; `c8_extract_tool_name_cex` shows
an id ending in a bare hyphen still yields Some(head).) -/
theorem c8_extract_tool_name (id h : String) :
    extract_tool_name_from_id id = some h ↔
      ∃ t : List Char, id.data = h.data ++ '-' :: t ∧ t.all Char.isDigit = true := by
  constructor
  · intro he
    unfold extract_tool_name_from_id at he
    cases hs : lastHyphenSplit id.data with
    | none => rw [hs] at he; simp at he
    | some p =>
      obtain ⟨hd, tl⟩ := p
      rw [hs] at he
      change (if tl.all Char.isDigit = true then some (String.mk hd) else none) = some h at he
      by_cases hall : tl.all Char.isDigit
      · rw [if_pos hall] at he
        injection he with he2
        refine ⟨tl, ?_, hall⟩
        have hshape := lastHyphenSplit_shape id.data hd tl hs
        rw [← he2]
        exact hshape
      · rw [if_neg hall] at he
        exact absurd he (by simp)
  · rintro ⟨t, hdata, hall⟩
    have hnot : '-' ∉ t := by
      intro hm
      have := List.all_eq_true.mp hall '-' hm
      simp [Char.isDigit] at this
    have hs := lastHyphenSplit_complete h.data id.data t hdata hnot
    unfold extract_tool_name_from_id
    rw [hs]
    show (if t.all Char.isDigit = true then some (String.mk h.data) else none) = some h
    rw [if_pos hall]

/-- C8 counterexample: on the id "foo-" — a hyphen followed by an EMPTY
digit suffix — the function returns some "foo", although the id does not
match <head>-<digits>$ with a non-empty digit run as the claim states:
the only decomposition of "foo-" with head "foo" has an empty suffix. -/
theorem c8_extract_tool_name_cex :
    extract_tool_name_from_id "foo-" = some "foo" ∧
      ¬ ∃ t : List Char, ("foo-").data = ("foo").data ++ '-' :: t ∧ t ≠ [] ∧
        t.all Char.isDigit = true := by
  refine ⟨rfl, ?_⟩
  rintro ⟨t, hdata, hne, _⟩
  have : ('f' :: 'o' :: 'o' :: '-' :: [] : List Char) = 'f' :: 'o' :: 'o' :: '-' :: t :=
    hdata
  injection this with e1 this
  injection this with e2 this
  injection this with e3 this
  injection this with e4 this
  exact hne this.symm

/-- C8 witness: the characterization evaluated at the id "write-123",
whose digit suffix is "123". -/
theorem c8_extract_tool_name_witness :
    (extract_tool_name_from_id "write-123" = some "write" ↔
      ∃ t : List Char, ("write-123").data = ("write").data ++ '-' :: t ∧
        t.all Char.isDigit = true) ∧
    extract_tool_name_from_id "write-123" = some "write" :=
  ⟨c8_extract_tool_name "write-123" "write",
    (c8_extract_tool_name "write-123" "write").mpr ⟨['1', '2', '3'], rfl, rfl⟩⟩

theorem extend_title (d : PartialToolCallData) (tc : ToolCall) (ext : ExtFns)
    (wt : String) :
    (d.extend tc ext wt).title = if strIsEmpty tc.title then d.title else tc.title := by
  rw [extend_eq_spec]
  by_cases h : strIsEmpty tc.title <;> simp [extendSpec, h]

/-- The full ToolCall the normalizer builds from a title-less ToolUpdate:
the title is filled from the stored record for the ID, or "" when the ID
is unknown. -/
def filledUpdateCall (st : NormState) (u : ToolCallUpdate) : ToolCall :=
  { id := u.id
    kind := u.fields.kind.getD defaultToolKind
    title := ((lookupTool st.tool_states u.id).map (fun s => s.title)).getD ""
    status := u.fields.status.getD defaultToolCallStatus
    locations := u.fields.locations.getD []
    content := u.fields.content.getD []
    raw_input := u.fields.raw_input
    raw_output := u.fields.raw_output }

theorem step_toolUpdate_titleless (ext : ExtFns) (wt : String) (st : NormState)
    (u : ToolCallUpdate) (hti : u.fields.title = none) :
    step ext wt st (.toolUpdate u) = handle_tool_call ext wt st (filledUpdateCall st u) := by
  simp [step, hti, tryToolCallOfUpdate, filledUpdateCall]

/-- C10: a ToolUpdate without a title field has its title filled from the
stored partial record when the ID is known (so the stored title — in
particular a non-empty one — survives the update unchanged), and with the
empty string only when the ID has never been seen. -/
theorem c10_title_fill (ext : ExtFns) (wt : String) (st : NormState)
    (u : ToolCallUpdate) (hti : u.fields.title = none) :
    (∀ d, lookupTool st.tool_states u.id = some d →
      ∃ d2, lookupTool (step ext wt st (.toolUpdate u)).1.tool_states u.id = some d2 ∧
        d2.title = d.title) ∧
    (lookupTool st.tool_states u.id = none →
      ∃ d2, lookupTool (step ext wt st (.toolUpdate u)).1.tool_states u.id = some d2 ∧
        d2.title = "") ∧
    (∀ d, lookupTool st.tool_states u.id = some d → d.title ≠ "" →
      ∃ d2, lookupTool (step ext wt st (.toolUpdate u)).1.tool_states u.id = some d2 ∧
        d2.title = d.title ∧ d2.title ≠ "") := by
  have hmain : ∀ d, lookupTool st.tool_states u.id = some d →
      ∃ d2, lookupTool (step ext wt st (.toolUpdate u)).1.tool_states u.id = some d2 ∧
        d2.title = d.title := by
    intro d hd
    rw [step_toolUpdate_titleless ext wt st u hti,
      handle_tool_call_seen ext wt st (filledUpdateCall st u) d hd]
    refine ⟨d.extend (filledUpdateCall st u) ext wt, ?_, ?_⟩
    · show lookupTool (insertTool st.tool_states (filledUpdateCall st u).id
        (d.extend (filledUpdateCall st u) ext wt)) u.id = _
      rw [lookup_insert]
      simp [filledUpdateCall]
    · rw [extend_title]
      show (if strIsEmpty (((lookupTool st.tool_states u.id).map
        (fun s => s.title)).getD "") then d.title else _) = d.title
      rw [hd]
      simp only [Option.map_some', Option.getD_some]
      by_cases ht : strIsEmpty d.title <;> simp [ht, filledUpdateCall, hd]
  refine ⟨hmain, ?_, ?_⟩
  · intro hd
    rw [step_toolUpdate_titleless ext wt st u hti,
      handle_tool_call_new ext wt st (filledUpdateCall st u) hd]
    refine ⟨{ PartialToolCallData.dflt.extend (filledUpdateCall st u) ext wt with
        index := st.nextIndex }, ?_, ?_⟩
    · show lookupTool (insertTool st.tool_states (filledUpdateCall st u).id _) u.id = _
      rw [lookup_insert]
      simp [filledUpdateCall]
    · show (PartialToolCallData.dflt.extend (filledUpdateCall st u) ext wt).title = ""
      rw [extend_title]
      show (if strIsEmpty (((lookupTool st.tool_states u.id).map
        (fun s => s.title)).getD "") then PartialToolCallData.dflt.title else _) = ""
      rw [hd]
      rfl
  · intro d hd hne
    obtain ⟨d2, h1, h2⟩ := hmain d hd
    exact ⟨d2, h1, h2, by rw [h2]; exact hne⟩

/-- A normalizer state that already stores a tool-call record under id
"exec-1" with the non-empty title "keep me". -/
def storedToolState : NormState :=
  { storedSessionId := true
    assistant_text := none
    thinking_text := none
    tool_states := [("exec-1", samplePartial)]
    nextIndex := 5 }

/-- A ToolUpdate for "exec-1" that carries a status but omits the title. -/
def titlelessUpdate : ToolCallUpdate :=
  { id := "exec-1"
    fields :=
      { kind := none
        status := some .completed
        title := none
        content := none
        locations := none
        raw_input := none
        raw_output := none } }

/-- C10 witness: processing the title-less update for the known id
"exec-1" leaves the stored title "keep me" in place. -/
theorem c10_title_fill_witness :
    ∃ d2, lookupTool (step extSample "wt" storedToolState
        (.toolUpdate titlelessUpdate)).1.tool_states titlelessUpdate.id = some d2 ∧
      d2.title = samplePartial.title :=
  (c10_title_fill extSample "wt" storedToolState titlelessUpdate rfl).1 samplePartial rfl
